import Mathlib

/-
  Shallow embedding of the sandbox-api service (Python/FastAPI) in Lean 4.

  Python strings are modelled as lists of characters (a Python str is a
  sequence of code points, which List Char captures exactly).  Pure helper
  functions from the source are translated definition by definition; the
  Redis-backed state and the container runtime are modelled as explicit
  state records threaded through the operations.
-/

namespace SandboxSpec

/-! ### Python string primitives -/

/-- ASCII whitespace stripped by Python str.strip (the Unicode-only
whitespace code points do not occur in the inputs we reason about). -/
def isPyWhitespace (c : Char) : Bool :=
  c = ' ' || c = '\t' || c = '\n' || c = '\r' || c = '\x0b' || c = '\x0c'

/-- Python str.strip(): drop whitespace from both ends. -/
def pyStrip (l : List Char) : List Char :=
  ((l.dropWhile isPyWhitespace).reverse.dropWhile isPyWhitespace).reverse

/-- Python str.split(sep) for a one-character separator: always returns at
least one (possibly empty) piece. -/
def splitOnChar (sep : Char) : List Char → List (List Char)
  | [] => [[]]
  | c :: cs =>
    if c = sep then [] :: splitOnChar sep cs
    else
      match splitOnChar sep cs with
      | [] => [[c]]
      | t :: ts => (c :: t) :: ts

/-- Python "/".join(segs). -/
def joinSlash : List (List Char) → List Char
  | [] => []
  | [s] => s
  | s :: rest => s ++ '/' :: joinSlash rest

/-! ### app/workspace_path.py -/

/-- resolve_workspace_path from app/workspace_path.py: strip whitespace,
strip leading slashes, split on "/", drop empty and "." segments, let ".."
pop a prior segment, and fail (HTTP 400, modelled as none) when ".." would
pop past the root. -/
def resolveParts : List (List Char) → List (List Char) → Option (List (List Char))
  | [], acc => some acc
  | p :: rest, acc =>
    if p = ['.'] ∨ p = [] then resolveParts rest acc
    else if p = ['.', '.'] then
      if acc = [] then none
      else resolveParts rest acc.dropLast
    else resolveParts rest (acc ++ [p])

/-- The full resolve_workspace_path body. -/
def resolve_workspace_path (path : List Char) : Option (List Char) :=
  let p := (pyStrip path).dropWhile (· = '/')
  if p = [] then some []
  else (resolveParts (splitOnChar '/' p) []).map joinSlash

/-- The segment list computed inside resolve_workspace_path, before joining. -/
def resolveSegments (path : List Char) : Option (List (List Char)) :=
  let p := (pyStrip path).dropWhile (· = '/')
  if p = [] then some []
  else resolveParts (splitOnChar '/' p) []

/-- container_path from app/workspace_path.py. -/
def container_path (path : List Char) : List Char :=
  if path = [] then "/workspace".toList
  else "/workspace/".toList ++ path

/-! ### Path normalization (the mathematical notion used by the spec to
state that a sanitized path stays under the workspace root). -/

/-- One step of segment normalization: drop empty and "." segments, let
".." pop the previous segment (".." at the root stays at the root, as
POSIX realpath). -/
def normStep (acc : List (List Char)) (p : List Char) : List (List Char) :=
  if p = [] ∨ p = ['.'] then acc
  else if p = ['.', '.'] then acc.dropLast
  else acc ++ [p]

/-- Normalize a segment list. -/
def normalizeSegs (parts : List (List Char)) : List (List Char) :=
  parts.foldl normStep []

/-- Normal form of an absolute path. -/
def normalizeAbs (s : List Char) : List Char :=
  '/' :: joinSlash (normalizeSegs (splitOnChar '/' s))

/-- A normalized absolute path lies under the workspace root. -/
def underWorkspace (s : List Char) : Bool :=
  s = "/workspace".toList || "/workspace/".toList.isPrefixOf s

/-- A ".." segment pops past the root when processing the segment list at
the given starting depth. -/
def popsPastRoot : List (List Char) → Nat → Bool
  | [], _ => false
  | p :: rest, d =>
    if p = ['.'] ∨ p = [] then popsPastRoot rest d
    else if p = ['.', '.'] then
      if d = 0 then true else popsPastRoot rest (d - 1)
    else popsPastRoot rest (d + 1)

/-! ### app/command_validation.py

The whitelist splits the command with shlex.split(stripped, posix=True).
We embed the CPython shlex state machine restricted to the configuration
that shlex.split uses: posix mode, whitespace_split on, no comment
characters, quotes the two ASCII quote characters, escape the backslash,
and the double quote the only quote inside which the backslash escapes. -/

inductive ShlexState where
  | word      -- accumulating a token (state a in CPython)
  | squote    -- inside single quotes
  | dquote    -- inside double quotes
  | escWord   -- after a backslash outside quotes
  | escDquote -- after a backslash inside double quotes
  deriving DecidableEq, Repr

/-- shlex whitespace characters. -/
def isShlexWhitespace (c : Char) : Bool :=
  c = ' ' || c = '\t' || c = '\r' || c = '\n'

/-- One pass of the CPython shlex read loop over the whole input, collecting
tokens.  tok is the token built so far, quoted records whether the current
token saw a quote (an empty quoted token is still emitted).  none models
ValueError (unclosed quotation or dangling escape). -/
def shlexRun : Option (List Char) → Bool → ShlexState → List Char →
    Option (List (List Char))
  | tok, quoted, st, [] =>
    match st with
    | .word =>
      -- end of input while in a word: emit unless empty and unquoted
      match tok with
      | none => some []
      | some t => if t = [] && !quoted then some [] else some [t]
    | .squote => none   -- No closing quotation
    | .dquote => none   -- No closing quotation
    | .escWord => none  -- No escaped character
    | .escDquote => none
  | tok, quoted, st, c :: cs =>
    match st with
    | .word =>
      if isShlexWhitespace c then
        -- token boundary: emit unless empty and unquoted, then continue fresh
        match tok with
        | none => shlexRun none false .word cs
        | some t =>
          if t = [] && !quoted then shlexRun none false .word cs
          else (shlexRun none false .word cs).map (t :: ·)
      else if c = '\'' then shlexRun (some (tok.getD [])) true .squote cs
      else if c = '"' then shlexRun (some (tok.getD [])) true .dquote cs
      else if c = '\\' then shlexRun (some (tok.getD [])) quoted .escWord cs
      else shlexRun (some (tok.getD [] ++ [c])) quoted .word cs
    | .squote =>
      if c = '\'' then shlexRun tok true .word cs
      else shlexRun ((tok.getD []) ++ [c]) true .squote cs
    | .dquote =>
      if c = '"' then shlexRun tok true .word cs
      else if c = '\\' then shlexRun tok true .escDquote cs
      else shlexRun ((tok.getD []) ++ [c]) true .dquote cs
    | .escWord => shlexRun ((tok.getD []) ++ [c]) quoted .word cs
    | .escDquote =>
      -- inside double quotes the backslash escapes only itself and the quote
      if c = '\\' || c = '"' then shlexRun ((tok.getD []) ++ [c]) true .dquote cs
      else shlexRun ((tok.getD []) ++ ['\\', c]) true .dquote cs

/-- shlex.split(s, posix=True): none models a raised ValueError. -/
def shlex_split (s : List Char) : Option (List (List Char)) :=
  shlexRun none false .word s

/-! ### app/config.py: the command whitelist configuration -/

/-- The default of the allowed_commands setting, exactly as in config.py. -/
def default_allowed_commands : List Char :=
  ("ls,cat,echo,pwd,id,whoami,sh,bash," ++
   "python,python3,pip,pip3," ++
   "git,curl,wget," ++
   "mkdir,cp,mv,rm,grep,find,head,tail,sort,uniq,xargs,env,basename,dirname," ++
   "test,diff,patch,tar").toList

/-- Python str.lower restricted to ASCII (all configured commands and the
binaries compared against them are ASCII). -/
def pyLower (l : List Char) : List Char := l.map Char.toLower

/-- allowed_commands_set from config.py: split the setting on commas, strip
each entry, drop empties, lowercase.  Membership in the list models set
membership. -/
def allowed_commands_set (allowed_commands : List Char) : List (List Char) :=
  (splitOnChar ',' allowed_commands).filterMap fun c =>
    let t := pyStrip c
    if t = [] then none else some (pyLower t)

/-- The binary identification applied to token 0 in is_command_allowed:
lowercase, then keep only the part after the last slash. -/
def tokenBasename (t : List Char) : List Char :=
  let binary := pyLower t
  if binary.contains '/' then (splitOnChar '/' binary).getLastD []
  else binary

/-- is_command_allowed from app/command_validation.py.  The shlex ValueError
on an unparseable command propagates out of the Python function, modelled
here as none. -/
def is_command_allowed (allowed : List (List Char)) (command : List Char) :
    Option Bool :=
  let stripped := pyStrip command
  if stripped = [] then some false
  else
    match shlex_split stripped with
    | none => none
    | some [] => some false
    | some (t0 :: _) => some (allowed.contains (tokenBasename t0))

/-! ### app/config.py: the settings record (defaults as in the source) -/

structure Settings where
  rate_limit_requests : Nat := 100
  rate_limit_window_seconds : Nat := 60
  session_ttl_seconds : Nat := 600
  max_exec_timeout_seconds : Int := 120
  cleanup_max_container_age_seconds : Int := 900
  allowed_commands : List Char := default_allowed_commands

def defaultSettings : Settings := {}

/-! ### app/rate_limit.py

A Redis rate key is modelled as absent (none) or a counter paired with an
optional remaining TTL, where ttl = none models the -1 sentinel of the TTL
command (key exists but has no expiry; INCR creates keys without expiry). -/

abbrev RateKey := Option (Nat × Option Nat)

/-- check_rate_limit from app/rate_limit.py: INCR then TTL in a pipeline,
set the expiry when the TTL sentinel says the key had none, admit iff the
incremented count is within rate_limit_requests. -/
def check_rate_limit (s : Settings) (key : RateKey) : Bool × (Nat × Option Nat) :=
  let count := match key with | none => 1 | some (c, _) => c + 1
  let ttl : Option Nat := match key with | none => none | some (_, t) => t
  let key1 :=
    if ttl = none then (count, some s.rate_limit_window_seconds)
    else (count, ttl)
  (decide (count ≤ s.rate_limit_requests), key1)

/-- n sequential calls inside one fixed window (the key persists and never
expires between them): final key state and the list of admit decisions. -/
def rateTrace (s : Settings) : Nat → RateKey × List Bool
  | 0 => (none, [])
  | n + 1 =>
    let prev := rateTrace s n
    let step := check_rate_limit s prev.1
    (some step.2, prev.2 ++ [step.1])

/-! ### app/session_manager.py

Redis keys session:<id> and container:<id> are modelled as association
lists from session_id to value and remaining TTL. -/

def alistGet (k : String) (l : List (String × α)) : Option α :=
  (l.find? (·.1 == k)).map (·.2)

def alistSet (k : String) (v : α) (l : List (String × α)) : List (String × α) :=
  (l.filter (·.1 != k)) ++ [(k, v)]

def alistDel (k : String) (l : List (String × α)) : List (String × α) :=
  l.filter (·.1 != k)

structure SessionRec where
  user_id : String
  container_id : String
  command_count : Nat
  deriving Repr, DecidableEq

structure StoreState where
  sessions : List (String × (SessionRec × Nat))
  containerKeys : List (String × (String × Nat))
  deriving Repr, DecidableEq

def sm_get_session (st : StoreState) (sid : String) : Option SessionRec :=
  (alistGet sid st.sessions).map (·.1)

def sm_get_container_id (st : StoreState) (sid : String) : Option String :=
  (alistGet sid st.containerKeys).map (·.1)

def sm_create_session (ttl : Nat) (st : StoreState) (sid uid cid : String) :
    StoreState :=
  { sessions := alistSet sid (⟨uid, cid, 0⟩, ttl) st.sessions,
    containerKeys := alistSet sid (cid, ttl) st.containerKeys }

def sm_delete_session (st : StoreState) (sid : String) : StoreState :=
  { sessions := alistDel sid st.sessions,
    containerKeys := alistDel sid st.containerKeys }

/-- refresh_session: if the session hash exists, extend both TTLs to the
full window and increment command_count (EXPIRE on an absent container key
is a no-op). -/
def sm_refresh_session (ttl : Nat) (st : StoreState) (sid : String) : StoreState :=
  match alistGet sid st.sessions with
  | none => st
  | some (r, _) =>
    { sessions :=
        alistSet sid ({ r with command_count := r.command_count + 1 }, ttl)
          st.sessions,
      containerKeys :=
        match alistGet sid st.containerKeys with
        | none => st.containerKeys
        | some (cid, _) => alistSet sid (cid, ttl) st.containerKeys }

/-! ### app/orchestrator/container_manager.py -/

/-- _sanitize_name: every character that is not ASCII alphanumeric or a
hyphen is replaced by a hyphen, and the result is cut to 64 characters. -/
def isAlnumAscii (c : Char) : Bool :=
  ('a' ≤ c && c ≤ 'z') || ('A' ≤ c && c ≤ 'Z') || ('0' ≤ c && c ≤ '9')

def _sanitize_name (s : List Char) : List Char :=
  (s.map fun c => if isAlnumAscii c || c = '-' then c else '-').take 64

/-- The container name built in _container_config. -/
def containerName (user_id session_id : List Char) : List Char :=
  "exec-".toList ++ _sanitize_name user_id ++ "-".toList ++ _sanitize_name session_id

structure DockerContainer where
  id : String
  status : String
  name : List Char := []
  labels_session_id : Option String := none
  labels_user_id : Option String := none
  labels_created_at : Option String := none
  deriving Repr, DecidableEq

/-- containers.get: none models docker.errors.NotFound. -/
def dockerGet (d : List DockerContainer) (cid : String) : Option DockerContainer :=
  d.find? (·.id == cid)

/-- container.remove(force=True). -/
def dockerRemove (d : List DockerContainer) (cid : String) : List DockerContainer :=
  d.filter (·.id != cid)

structure SysState where
  docker : List DockerContainer
  store : StoreState
  deriving Repr, DecidableEq

/-- The creation path of get_or_create_container: build the config (name
and labels), create the container, start it (so it is running), and
record the session with the configured TTL. -/
def createFresh (s : Settings) (newId createdAt session_id user_id : String)
    (st1 : SysState) : DockerContainer × SysState :=
  let c : DockerContainer :=
    { id := newId, status := "running",
      name := containerName user_id.toList session_id.toList,
      labels_session_id := some session_id,
      labels_user_id := some user_id,
      labels_created_at := some createdAt }
  (c, { docker := st1.docker ++ [c],
        store := sm_create_session s.session_ttl_seconds st1.store
                   session_id user_id newId })

/-- get_or_create_container.  newId is the id the runtime assigns to a
container made by containers.create; createdAt is the ISO timestamp taken
at config-build time. -/
def get_or_create_container (s : Settings) (newId createdAt : String)
    (st : SysState) (session_id user_id : String) : DockerContainer × SysState :=
  match sm_get_container_id st.store session_id with
  | some cid =>
    match dockerGet st.docker cid with
    | some cont =>
      if cont.status = "running" then (cont, st)
      else
        createFresh s newId createdAt session_id user_id
          { docker := dockerRemove st.docker cid,
            store := sm_delete_session st.store session_id }
    | none =>
      createFresh s newId createdAt session_id user_id
        { docker := st.docker, store := sm_delete_session st.store session_id }
  | none => createFresh s newId createdAt session_id user_id st

/-- What the creation path guarantees: the returned container is the
started record with the configured name and labels, it is in the runtime,
and both store keys map the session to it with the configured TTL. -/
def freshCreationPost (s : Settings) (newId createdAt sid uid : String)
    (r : DockerContainer × SysState) : Prop :=
  r.1 = { id := newId, status := "running",
          name := containerName uid.toList sid.toList,
          labels_session_id := some sid, labels_user_id := some uid,
          labels_created_at := some createdAt } ∧
  r.1 ∈ r.2.docker ∧
  alistGet sid r.2.store.containerKeys = some (newId, s.session_ttl_seconds) ∧
  alistGet sid r.2.store.sessions =
    some (⟨uid, newId, 0⟩, s.session_ttl_seconds)

/-! #### execute_in_container -/

/-- What the exec thread does, given the clamped timeout the caller waits
for: it finishes in time with outputs and an optional exit code, the wait
times out, or the exec raises. -/
inductive RunExecOutcome where
  | ok (stdout stderr : List Char) (exit_code : Option Int)
  | timeout
  | failure (msg : List Char)

structure ExecResult where
  stdout : List Char
  stderr : List Char
  exit_code : Int
  execution_time : Int
  deriving Repr, DecidableEq

/-- The clamp applied to timeout_seconds. -/
def effectiveTimeout (s : Settings) (timeout_seconds : Int) : Int :=
  min (max 1 timeout_seconds) s.max_exec_timeout_seconds

def intToChars (n : Int) : List Char := (toString n).toList

/-- execute_in_container: clamp the timeout, wait for the exec; on
TimeoutError or any other exception return an in-band error result.
elapsed is the measured wall clock, threaded as data. -/
def execute_in_container (s : Settings) (timeout_seconds : Int)
    (outcome : Int → RunExecOutcome) (elapsed : Int) : ExecResult :=
  let timeout := effectiveTimeout s timeout_seconds
  match outcome timeout with
  | .ok out err code =>
    { stdout := out, stderr := err, exit_code := code.getD 0,
      execution_time := elapsed }
  | .timeout =>
    { stdout := [],
      stderr := "Command timed out after ".toList ++ intToChars timeout ++ ['s'],
      exit_code := -1, execution_time := elapsed }
  | .failure msg =>
    { stdout := [], stderr := msg, exit_code := -1, execution_time := elapsed }

/-! ### app/routers/sessions.py: DELETE /sessions/{session_id} -/

inductive DeleteOutcome where
  | deleted    -- {"status": "deleted", "session_id": sid}
  | forbidden  -- HTTP 403, session belongs to another user
  deriving Repr, DecidableEq

/-- delete_session handler body (after the auth dependency resolved
user_id): absent session reports deleted; a foreign session is 403 and
nothing changes; the owner gets a best-effort container force-remove
(runtime errors swallowed) and both store keys deleted. -/
def delete_session (st : SysState) (session_id user_id : String) :
    DeleteOutcome × SysState :=
  match sm_get_session st.store session_id with
  | none => (.deleted, st)
  | some sess =>
    if sess.user_id ≠ user_id then (.forbidden, st)
    else
      let docker1 :=
        match sm_get_container_id st.store session_id with
        | some cid =>
          match dockerGet st.docker cid with
          | some _ => dockerRemove st.docker cid
          | none => st.docker  -- NotFound swallowed by the except
        | none => st.docker
      (.deleted, { docker := docker1,
                   store := sm_delete_session st.store session_id })

/-! ### app/workers/cleanup.py -/

/-- A container as the sweep sees it: the two labels it reads (a label can
be missing, and labels.get of a present label can be the empty string) and
whether the remove call raises (modelling per-container runtime failure,
which the sweep catches and logs). -/
structure CleanupContainer where
  id : String
  labels_session_id : Option String
  labels_created_at : Option String
  removeFails : Bool
  deriving Repr, DecidableEq

/-- A container is reclaimed when its created_at label is present,
nonempty, parseable, and its age is at least max_age_seconds.  parse
abstracts datetime.fromisoformat (with the Z replacement); a parse
failure raises inside the per-container try and is caught. -/
def cleanupEligible (parse : String → Option Int) (now max_age : Int)
    (c : CleanupContainer) : Bool :=
  match c.labels_created_at with
  | none => false
  | some str =>
    if str = "" then false
    else
      match parse str with
      | none => false
      | some t => decide (max_age ≤ now - t)

/-- Session store deletion done for one reclaimed container (only when the
session label is present and nonempty). -/
def cleanupDeleteStore (store : StoreState) (c : CleanupContainer) : StoreState :=
  match c.labels_session_id with
  | none => store
  | some sid => if sid = "" then store else sm_delete_session store sid

/-- cleanup_expired_containers: walk the labelled containers in order;
skip missing or unparseable created_at and under-age containers; remove
the rest, deleting the session record; a failure on one container is
caught and the sweep continues.  Returns the removed count, the removed
container ids, and the final store. -/
def cleanup_expired_containers (parse : String → Option Int) (now max_age : Int) :
    List CleanupContainer → StoreState → Nat × List String × StoreState
  | [], store => (0, [], store)
  | c :: rest, store =>
    if cleanupEligible parse now max_age c && !c.removeFails then
      let rec1 :=
        cleanup_expired_containers parse now max_age rest (cleanupDeleteStore store c)
      (rec1.1 + 1, c.id :: rec1.2.1, rec1.2.2)
    else
      cleanup_expired_containers parse now max_age rest store

/-! ### app/routers/execute.py: the POST /execute pipeline -/

inductive PipelineError where
  | commandForbidden  -- 400, whitelist rejected
  | rateLimited       -- 429
  | valueError        -- shlex ValueError escaping the handler (HTTP 500)
  deriving Repr, DecidableEq

/-- Inputs the runtime supplies during one request. -/
structure ExecEnv where
  newId : String
  createdAt : String
  outcome : Int → RunExecOutcome
  elapsed : Int

structure AppState where
  rate : RateKey
  sys : SysState

/-- execute_command handler body, after FastAPI resolved the auth
dependency to user_id: ensure_command_allowed, then ensure_rate_limit,
then get_or_create_container, refresh_session, execute_in_container. -/
def execute_command (s : Settings) (env : ExecEnv) (user_id session_id : String)
    (command : List Char) (timeout : Int) (st : AppState) :
    Except PipelineError ExecResult × AppState :=
  match is_command_allowed (allowed_commands_set s.allowed_commands) command with
  | none => (.error .valueError, st)
  | some false => (.error .commandForbidden, st)
  | some true =>
    let step := check_rate_limit s st.rate
    if !step.1 then (.error .rateLimited, { st with rate := some step.2 })
    else
      let sys1 :=
        (get_or_create_container s env.newId env.createdAt st.sys
          session_id user_id).2
      let sys2 : SysState :=
        { sys1 with store := sm_refresh_session s.session_ttl_seconds sys1.store
                               session_id }
      let result := execute_in_container s timeout env.outcome env.elapsed
      (.ok result, { rate := some step.2, sys := sys2 })

/-! ### Concrete states used by witnesses -/

def wStore : StoreState :=
  { sessions := [("s1", (⟨"alice", "c1", 0⟩, 600))],
    containerKeys := [("s1", ("c1", 600))] }

def wSys : SysState :=
  { docker := [{ id := "c1", status := "running" }], store := wStore }

def wSysExited : SysState :=
  { docker := [{ id := "c1", status := "exited" }], store := wStore }

def emptySys : SysState :=
  { docker := [], store := { sessions := [], containerKeys := [] } }

def wEnv : ExecEnv :=
  { newId := "c2", createdAt := "2026-01-01T00:00:00+00:00",
    outcome := fun _ => .timeout, elapsed := 0 }

def wCleanup : List CleanupContainer :=
  [ { id := "old1", labels_session_id := some "s1",
      labels_created_at := some "T0", removeFails := false },
    { id := "young", labels_session_id := some "s2",
      labels_created_at := some "T1", removeFails := false },
    { id := "nolabel", labels_session_id := some "s3",
      labels_created_at := none, removeFails := false } ]

def wParse : String → Option Int := fun s =>
  if s = "T0" then some 0 else if s = "T1" then some 900 else none

/-! ## Claims -/

/-- C2: execute_in_container clamps the timeout to
min(max(1, timeout_seconds), max_exec_timeout_seconds); on timeout it
returns stdout = "", exit_code = -1, stderr = "Command timed out after Ns"
with N the clamped timeout and execution_time the measured wall clock; on
any other failure it returns exit_code = -1 with the error message in
stderr; being a total function it raises nothing to the caller. -/
theorem C2_execute_clamp_and_errors (s : Settings) (t : Int)
    (outcome : Int → RunExecOutcome) (elapsed : Int) :
    effectiveTimeout s t = min (max 1 t) s.max_exec_timeout_seconds ∧
    (outcome (effectiveTimeout s t) = .timeout →
      execute_in_container s t outcome elapsed =
        { stdout := [],
          stderr := "Command timed out after ".toList ++
            intToChars (min (max 1 t) s.max_exec_timeout_seconds) ++ ['s'],
          exit_code := -1, execution_time := elapsed }) ∧
    (∀ msg, outcome (effectiveTimeout s t) = .failure msg →
      execute_in_container s t outcome elapsed =
        { stdout := [], stderr := msg, exit_code := -1,
          execution_time := elapsed }) ∧
    (∀ out err code, outcome (effectiveTimeout s t) = .ok out err code →
      execute_in_container s t outcome elapsed =
        { stdout := out, stderr := err, exit_code := code.getD 0,
          execution_time := elapsed }) := by
  refine ⟨rfl, ?_, ?_, ?_⟩
  · intro h; simp only [execute_in_container]; rw [h]; rfl
  · intro msg h; simp only [execute_in_container]; rw [h]
  · intro out err code h; simp only [execute_in_container]; rw [h]

/-- C2 witness: timeout 200 is clamped to the default maximum 120 and the
timeout branch yields the in-band error result. -/
theorem C2_execute_clamp_and_errors_witness :
    execute_in_container defaultSettings 200 (fun _ => .timeout) 5 =
      { stdout := [], stderr := "Command timed out after 120s".toList,
        exit_code := -1, execution_time := 5 } := by
  have h :=
    (C2_execute_clamp_and_errors defaultSettings 200 (fun _ => .timeout) 5).2.1 rfl
  exact h.trans (by decide)

/-- C3 counterexample: the whole container name is not truncated to 64
characters — a 70-character user id yields a 71-character name. -/
theorem C3_counterexample :
    (containerName (List.replicate 70 'a') ['s']).length = 71 ∧
    ¬ ((containerName (List.replicate 70 'a') ['s']).length ≤ 64) := by decide

/-- C3 amended: the name is exec-<sanitized-user>-<sanitized-session>
where sanitization replaces every character that is not alphanumeric or a
hyphen by a hyphen and truncates each component separately to 64
characters, so the whole name is at most 134 characters and consists of
alphanumerics and hyphens besides the fixed punctuation. -/
theorem C3_container_name (user_id session_id : List Char) :
    containerName user_id session_id =
      "exec-".toList ++ _sanitize_name user_id ++ "-".toList ++
        _sanitize_name session_id ∧
    (_sanitize_name user_id).length ≤ 64 ∧
    (_sanitize_name session_id).length ≤ 64 ∧
    (containerName user_id session_id).length ≤ 134 ∧
    (∀ c ∈ _sanitize_name user_id ++ _sanitize_name session_id,
      (isAlnumAscii c || c = '-') = true) := by
  have hlen : ∀ l : List Char, (_sanitize_name l).length ≤ 64 := fun l => by
    simp [_sanitize_name]
  have hmem : ∀ l : List Char, ∀ c ∈ _sanitize_name l,
      (isAlnumAscii c || c = '-') = true := by
    intro l c hc
    simp only [_sanitize_name] at hc
    obtain ⟨x, _, rfl⟩ := List.mem_map.mp (List.mem_of_mem_take hc)
    by_cases h : (isAlnumAscii x || x = '-') = true
    · rw [if_pos h]; exact h
    · rw [if_neg h]; decide
  refine ⟨rfl, hlen _, hlen _, ?_, ?_⟩
  · have h1 := hlen user_id
    have h2 := hlen session_id
    have e1 : ("exec-".toList : List Char).length = 5 := rfl
    have e2 : ("-".toList : List Char).length = 1 := rfl
    simp only [containerName, List.length_append, e1, e2]
    omega
  · intro c hc
    rcases List.mem_append.mp hc with h | h
    exacts [hmem _ _ h, hmem _ _ h]

/-- C3 witness: the amended bound at a concrete input with a character
needing sanitization. -/
theorem C3_container_name_witness :
    (containerName "User!".toList "s*1".toList).length ≤ 134 ∧
    (isAlnumAscii '-' || '-' = '-') = true := by
  have h := C3_container_name "User!".toList "s*1".toList
  exact ⟨h.2.2.2.1, h.2.2.2.2 '-' (by decide)⟩

/-- C10 counterexample: the input "/ /" (only whitespace and slashes)
resolves to the single-space segment, not the workspace root, and
resolving "/ foo" differs from resolving its trimmed-and-deslashed form
" foo" — so resolution is not invariant under that preprocessing. -/
theorem C10_counterexample :
    resolve_workspace_path "/ /".toList = some [' '] ∧
    some ([' '] : List Char) ≠ some ([] : List Char) ∧
    resolve_workspace_path "/ foo".toList = some " foo".toList ∧
    resolve_workspace_path ((pyStrip "/ foo".toList).dropWhile (· = '/')) =
      some "foo".toList ∧
    some (" foo".toList) ≠ some ("foo".toList) := by decide

lemma rateTrace_key (s : Settings) (n : Nat) :
    (rateTrace s n).1 =
      if n = 0 then none else some (n, some s.rate_limit_window_seconds) := by
  induction n with
  | zero => rfl
  | succ n ih =>
    simp only [rateTrace, ih]
    by_cases h : n = 0
    · subst h; simp [check_rate_limit]
    · simp [h, check_rate_limit]

lemma rateTrace_step (s : Settings) (n : Nat) :
    check_rate_limit s (rateTrace s n).1 =
      (decide (n + 1 ≤ s.rate_limit_requests),
       (n + 1, some s.rate_limit_window_seconds)) := by
  rw [rateTrace_key]
  by_cases h : n = 0
  · subst h; simp [check_rate_limit]
  · simp [h, check_rate_limit]

lemma rateTrace_count (s : Settings) (n : Nat) :
    ((rateTrace s n).2.count true) = min n s.rate_limit_requests := by
  induction n with
  | zero => simp [rateTrace]
  | succ n ih =>
    have hb : ∀ b : Bool, List.count true [b] = if b = true then 1 else 0 := by
      decide
    simp only [rateTrace, List.count_append, ih, rateTrace_step, hb,
      decide_eq_true_eq]
    split <;> omega

/-- C7: each check_rate_limit call increments the counter at the rate key,
sets the window TTL exactly when the key reports no expiry, and denies
exactly when the incremented count exceeds rate_limit_requests; over any
number of calls in one fixed window, the admitted count never exceeds
rate_limit_requests. -/
theorem C7_rate_limit (s : Settings) (key : RateKey) (n : Nat) :
    ((check_rate_limit s key).2.1 =
      (match key with | none => 0 | some (c, _) => c) + 1) ∧
    ((match key with | none => none | some (_, t) => t) = (none : Option Nat) →
      (check_rate_limit s key).2.2 = some s.rate_limit_window_seconds) ∧
    (∀ c t, key = some (c, some t) →
      (check_rate_limit s key).2.2 = some t) ∧
    ((check_rate_limit s key).1 = false ↔
      s.rate_limit_requests < (check_rate_limit s key).2.1) ∧
    ((rateTrace s n).2.count true ≤ s.rate_limit_requests) := by
  refine ⟨?_, ?_, ?_, ?_, ?_⟩
  · rcases key with _ | ⟨c, _ | t⟩ <;> simp [check_rate_limit]
  · rcases key with _ | ⟨c, t⟩ <;> intro h
    · simp [check_rate_limit]
    · have h' : t = none := h
      subst h'; simp [check_rate_limit]
  · intro c t h; subst h; simp [check_rate_limit]
  · rcases key with _ | ⟨c, _ | t⟩ <;>
      simp [check_rate_limit, decide_eq_false_iff_not]
  · rw [rateTrace_count]; exact Nat.min_le_right _ _

/-- C7 witness: a concrete call increments 2 to 3 and keeps the existing
TTL, a first call sets the 60-second window, and 7 calls admit at most
100 requests. -/
theorem C7_rate_limit_witness :
    (check_rate_limit defaultSettings (some (2, some 30))).2.1 = 3 ∧
    (check_rate_limit defaultSettings none).2.2 = some 60 ∧
    (check_rate_limit defaultSettings (some (2, some 30))).2.2 = some 30 ∧
    (rateTrace defaultSettings 7).2.count true ≤ 100 := by
  refine ⟨?_, ?_, ?_, ?_⟩
  · exact ((C7_rate_limit defaultSettings (some (2, some 30)) 0).1).trans (by decide)
  · exact ((C7_rate_limit defaultSettings none 0).2.1 rfl).trans (by decide)
  · exact (C7_rate_limit defaultSettings (some (2, some 30)) 0).2.2.1 2 30 rfl
  · exact (C7_rate_limit defaultSettings none 7).2.2.2.2

/-! ### Association list and runtime lookup lemmas -/

lemma find?_filter_ne {α : Type} (k : String) (l : List (String × α)) :
    (l.filter (·.1 != k)).find? (·.1 == k) = none :=
  List.find?_eq_none.mpr fun x hx => by
    have h2 := (List.mem_filter.mp hx).2
    simpa using h2

lemma alistGet_del {α : Type} (k : String) (l : List (String × α)) :
    alistGet k (alistDel k l) = none := by
  simp [alistGet, alistDel, find?_filter_ne]

lemma alistGet_set {α : Type} (k : String) (v : α) (l : List (String × α)) :
    alistGet k (alistSet k v l) = some v := by
  have h2 : List.find? (·.1 == k) (alistSet k v l) = some (k, v) := by
    rw [alistSet, List.find?_append, find?_filter_ne,
      List.find?_cons_of_pos _ (by simp)]
    rfl
  simp [alistGet, h2]

lemma dockerGet_remove (d : List DockerContainer) (cid : String) :
    dockerGet (dockerRemove d cid) cid = none :=
  List.find?_eq_none.mpr fun x hx => by
    have h2 := (List.mem_filter.mp hx).2
    simpa using h2

lemma dockerGet_some {d : List DockerContainer} {cid : String}
    {c : DockerContainer} (h : dockerGet d cid = some c) : c.id = cid ∧ c ∈ d :=
  ⟨by simpa using List.find?_some h, List.mem_of_find?_eq_some h⟩

/-- C9: deleting an absent session reports deleted and changes nothing;
deleting a session owned by another principal fails with forbidden and
changes nothing; the owner deletion removes both store keys and
force-removes the recorded container. -/
theorem C9_delete_session (st : SysState) (sid uid : String) :
    (sm_get_session st.store sid = none →
      delete_session st sid uid = (.deleted, st)) ∧
    (∀ sess, sm_get_session st.store sid = some sess → sess.user_id ≠ uid →
      delete_session st sid uid = (.forbidden, st)) ∧
    (∀ sess, sm_get_session st.store sid = some sess → sess.user_id = uid →
      (delete_session st sid uid).1 = .deleted ∧
      sm_get_session (delete_session st sid uid).2.store sid = none ∧
      sm_get_container_id (delete_session st sid uid).2.store sid = none ∧
      (∀ cid, sm_get_container_id st.store sid = some cid →
        dockerGet (delete_session st sid uid).2.docker cid = none)) := by
  refine ⟨?_, ?_, ?_⟩
  · intro h; simp [delete_session, h]
  · intro sess h hne; simp [delete_session, h, hne]
  · intro sess h heq
    have hcond : ¬ (sess.user_id ≠ uid) := by simp [heq]
    refine ⟨?_, ?_, ?_, ?_⟩
    · simp [delete_session, h, hcond]
    · simp only [delete_session, h, hcond, if_false, ite_not]
      simp [sm_get_session, sm_delete_session, alistGet_del, heq]
    · simp only [delete_session, h, hcond, if_false, ite_not]
      simp [sm_get_container_id, sm_delete_session, alistGet_del, heq]
    · intro cid hcid
      rcases hdg : dockerGet st.docker cid with _ | c
      · simp [delete_session, h, hcond, hcid, hdg]
      · simp [delete_session, h, hcond, hcid, hdg, dockerGet_remove]

/-- C9 witness: on a store holding session s1 owned by alice with
container c1, bob is refused with the state untouched, deleting an absent
session succeeds as a no-op, and alice removes both the records and the
container. -/
theorem C9_delete_session_witness :
    delete_session wSys "s1" "bob" = (.forbidden, wSys) ∧
    delete_session wSys "nosuch" "alice" = (.deleted, wSys) ∧
    (delete_session wSys "s1" "alice").1 = .deleted ∧
    sm_get_session (delete_session wSys "s1" "alice").2.store "s1" = none ∧
    dockerGet (delete_session wSys "s1" "alice").2.docker "c1" = none := by
  have h3 := (C9_delete_session wSys "s1" "alice").2.2 ⟨"alice", "c1", 0⟩
    (by decide) rfl
  exact ⟨(C9_delete_session wSys "s1" "bob").2.1 ⟨"alice", "c1", 0⟩ (by decide)
      (by decide),
    (C9_delete_session wSys "nosuch" "alice").1 (by decide),
    h3.1, h3.2.1, h3.2.2.2 "c1" (by decide)⟩

/-- C4 counterexample: a command rejected by the whitelist consumes no
rate budget — the handler checks the whitelist before the rate limiter,
so the rejected request leaves the rate key untouched (still absent),
contradicting the claimed rate-limit-before-whitelist order. -/
theorem C4_counterexample :
    execute_command defaultSettings wEnv "alice" "s1" "nc -l 1234".toList 30
        { rate := none, sys := emptySys } =
      (.error .commandForbidden, { rate := none, sys := emptySys }) := by
  rfl

/-- C4 amended: the pipeline order is authenticate, then whitelist, then
rate-limit: a command the whitelist rejects (or that shlex fails to parse)
leaves the state — in particular the rate counter — unchanged, and only a
whitelist-admitted request increments the rate counter. -/
theorem C4_pipeline_order (s : Settings) (env : ExecEnv) (uid sid : String)
    (command : List Char) (t : Int) (st : AppState) :
    (is_command_allowed (allowed_commands_set s.allowed_commands) command =
        some false →
      execute_command s env uid sid command t st =
        (.error .commandForbidden, st)) ∧
    (is_command_allowed (allowed_commands_set s.allowed_commands) command =
        none →
      execute_command s env uid sid command t st = (.error .valueError, st)) ∧
    (is_command_allowed (allowed_commands_set s.allowed_commands) command =
        some true →
      (execute_command s env uid sid command t st).2.rate =
        some (check_rate_limit s st.rate).2 ∧
      (check_rate_limit s st.rate).2.1 =
        (match st.rate with | none => 0 | some (c, _) => c) + 1) := by
  refine ⟨?_, ?_, ?_⟩
  · intro h; simp [execute_command, h]
  · intro h; simp [execute_command, h]
  · intro h
    constructor
    · simp only [execute_command, h]
      by_cases hok : (check_rate_limit s st.rate).1 <;> simp [hok]
    · rcases st.rate with _ | ⟨c, _ | t'⟩ <;> simp [check_rate_limit]

/-- C4 witness: concretely, the rejected command leaves the rate key
absent while an admitted command creates it with count 1 and the window
TTL. -/
theorem C4_pipeline_order_witness :
    (execute_command defaultSettings wEnv "alice" "s1" "nc -l 1234".toList 30
        { rate := none, sys := emptySys }).2.rate = none ∧
    (execute_command defaultSettings wEnv "alice" "s1" "echo hi".toList 30
        { rate := none, sys := emptySys }).2.rate = some (1, some 60) := by
  have h1 := (C4_pipeline_order defaultSettings wEnv "alice" "s1"
    "nc -l 1234".toList 30 { rate := none, sys := emptySys }).1 (by decide)
  have h2 := (C4_pipeline_order defaultSettings wEnv "alice" "s1"
    "echo hi".toList 30 { rate := none, sys := emptySys }).2.2 (by decide)
  exact ⟨by rw [h1], h2.1.trans (by decide)⟩

/-- The sweep equals a filter over the container list: removed count, ids,
and store deletions are those of the eligible, successfully-removed
containers, independent of failures elsewhere in the list. -/
lemma cleanup_spec (parse : String → Option Int) (now max_age : Int)
    (cs : List CleanupContainer) :
    ∀ store : StoreState,
      cleanup_expired_containers parse now max_age cs store =
        ((cs.filter fun c =>
            cleanupEligible parse now max_age c && !c.removeFails).length,
         (cs.filter fun c =>
            cleanupEligible parse now max_age c && !c.removeFails).map (·.id),
         (cs.filter fun c =>
            cleanupEligible parse now max_age c && !c.removeFails).foldl
           cleanupDeleteStore store) := by
  induction cs with
  | nil => intro store; rfl
  | cons c rest ih =>
    intro store
    by_cases h : (cleanupEligible parse now max_age c && !c.removeFails) = true
    · simp [cleanup_expired_containers, h, ih, List.filter_cons]
    · simp [cleanup_expired_containers, h, ih, List.filter_cons]

/-- C8: the sweep removes exactly the containers whose created_at label is
present, nonempty, parseable and at least max_age old (and whose removal
does not fail), deleting the removed containers in list order and their
session records; missing, empty or unparseable created_at labels and
under-age containers are skipped; a failure on one container does not
change how the others are treated. -/
theorem C8_cleanup (parse : String → Option Int) (now max_age : Int)
    (cs : List CleanupContainer) (store : StoreState) :
    ((cleanup_expired_containers parse now max_age cs store).2.1 =
      (cs.filter fun c =>
        cleanupEligible parse now max_age c && !c.removeFails).map (·.id)) ∧
    ((cleanup_expired_containers parse now max_age cs store).1 =
      (cs.filter fun c =>
        cleanupEligible parse now max_age c && !c.removeFails).length) ∧
    ((cleanup_expired_containers parse now max_age cs store).2.2 =
      (cs.filter fun c =>
        cleanupEligible parse now max_age c && !c.removeFails).foldl
        cleanupDeleteStore store) ∧
    ((∀ c ∈ cs, c.removeFails = false) →
      (cleanup_expired_containers parse now max_age cs store).2.1 =
        (cs.filter (cleanupEligible parse now max_age)).map (·.id)) ∧
    (∀ c : CleanupContainer, c.labels_created_at = none →
      cleanupEligible parse now max_age c = false) ∧
    (∀ (c : CleanupContainer) (str : String), c.labels_created_at = some str →
      parse str = none → cleanupEligible parse now max_age c = false) ∧
    (∀ (c : CleanupContainer) (str : String) (tc : Int),
      c.labels_created_at = some str → parse str = some tc →
      now - tc < max_age → cleanupEligible parse now max_age c = false) := by
  refine ⟨?_, ?_, ?_, ?_, ?_, ?_, ?_⟩
  · rw [cleanup_spec]
  · rw [cleanup_spec]
  · rw [cleanup_spec]
  · intro hok
    rw [cleanup_spec]
    have : (cs.filter fun c =>
        cleanupEligible parse now max_age c && !c.removeFails) =
        cs.filter (cleanupEligible parse now max_age) := by
      apply List.filter_congr
      intro c hc
      rw [hok c hc]
      simp
    rw [this]
  · intro c h; simp [cleanupEligible, h]
  · intro c str hl hp
    by_cases hs : str = "" <;> simp [cleanupEligible, hl, hp, hs]
  · intro c str tc hl hp hlt
    by_cases hs : str = "" <;>
      simp [cleanupEligible, hl, hp, hs, decide_eq_false_iff_not]
    omega

/-- C8 witness: with three labelled containers — one 1000 seconds old, one
100 seconds old, one with no created_at label — a sweep with a 900-second
ceiling removes exactly the old one. -/
theorem C8_cleanup_witness :
    (cleanup_expired_containers wParse 1000 900 wCleanup wStore).2.1 =
      ["old1"] ∧
    (cleanup_expired_containers wParse 1000 900 wCleanup wStore).1 = 1 ∧
    cleanupEligible wParse 1000 900 ⟨"nolabel", some "s3", none, false⟩ =
      false := by
  have h := C8_cleanup wParse 1000 900 wCleanup wStore
  exact ⟨(h.2.2.2.1 (by decide)).trans (by decide), h.2.1.trans (by decide),
    h.2.2.2.2.1 ⟨"nolabel", some "s3", none, false⟩ rfl⟩

lemma dockerGet_append (d₁ d₂ : List DockerContainer) (cid : String) :
    dockerGet (d₁ ++ d₂) cid = (dockerGet d₁ cid).or (dockerGet d₂ cid) :=
  List.find?_append

lemma dockerGet_singleton_ne (c : DockerContainer) (cid : String)
    (h : c.id ≠ cid) : dockerGet [c] cid = none := by
  have hb : (c.id == cid) = false := beq_eq_false_iff_ne.mpr h
  simp [dockerGet, List.find?, hb]

lemma createFresh_post (s : Settings) (newId createdAt sid uid : String)
    (st1 : SysState) :
    freshCreationPost s newId createdAt sid uid
      (createFresh s newId createdAt sid uid st1) := by
  refine ⟨rfl, ?_, ?_, ?_⟩
  · simp [createFresh]
  · simp [createFresh, sm_create_session, alistGet_set]
  · simp [createFresh, sm_create_session, alistGet_set]

lemma createFresh_container_id (s : Settings) (newId createdAt sid uid : String)
    (st1 : SysState) :
    sm_get_container_id (createFresh s newId createdAt sid uid st1).2.store sid =
      some (createFresh s newId createdAt sid uid st1).1.id := by
  simp [createFresh, sm_get_container_id, sm_create_session, alistGet_set]

/-- C1: get_or_create_container always returns a running container and
leaves the session store mapping the session to exactly that container:
a stored container the runtime reports running is returned as is; a
stored container that exists but is not running is force-removed, the
session record deleted, and a fresh container created, started and
recorded with the configured TTL; a stored id the runtime does not know
leads to the same deletion-plus-fresh-creation; with no stored id a fresh
container is created directly. -/
theorem C1_get_or_create (s : Settings) (newId createdAt sid uid : String)
    (st : SysState) (hfresh : ∀ c ∈ st.docker, c.id ≠ newId) :
    ((get_or_create_container s newId createdAt st sid uid).1.status =
      "running") ∧
    (sm_get_container_id
        (get_or_create_container s newId createdAt st sid uid).2.store sid =
      some (get_or_create_container s newId createdAt st sid uid).1.id) ∧
    (∀ cid cont, sm_get_container_id st.store sid = some cid →
      dockerGet st.docker cid = some cont → cont.status = "running" →
      get_or_create_container s newId createdAt st sid uid = (cont, st)) ∧
    (∀ cid cont, sm_get_container_id st.store sid = some cid →
      dockerGet st.docker cid = some cont → cont.status ≠ "running" →
      dockerGet (get_or_create_container s newId createdAt st sid uid).2.docker
          cid = none ∧
      freshCreationPost s newId createdAt sid uid
        (get_or_create_container s newId createdAt st sid uid)) ∧
    (∀ cid, sm_get_container_id st.store sid = some cid →
      dockerGet st.docker cid = none →
      freshCreationPost s newId createdAt sid uid
        (get_or_create_container s newId createdAt st sid uid)) ∧
    (sm_get_container_id st.store sid = none →
      freshCreationPost s newId createdAt sid uid
        (get_or_create_container s newId createdAt st sid uid)) := by
  refine ⟨?_, ?_, ?_, ?_, ?_, ?_⟩
  · rcases hc : sm_get_container_id st.store sid with _ | cid
    · simp [get_or_create_container, hc, createFresh]
    · rcases hd : dockerGet st.docker cid with _ | cont
      · simp [get_or_create_container, hc, hd, createFresh]
      · by_cases hr : cont.status = "running"
        · simp [get_or_create_container, hc, hd, hr]
        · simp [get_or_create_container, hc, hd, hr, createFresh]
  · rcases hc : sm_get_container_id st.store sid with _ | cid
    · simp only [get_or_create_container, hc, createFresh_container_id]
    · rcases hd : dockerGet st.docker cid with _ | cont
      · simp only [get_or_create_container, hc, hd, createFresh_container_id]
      · by_cases hr : cont.status = "running"
        · simp only [get_or_create_container, hc, hd, if_pos hr]
          rw [(dockerGet_some hd).1]
        · simp only [get_or_create_container, hc, hd, if_neg hr,
            createFresh_container_id]
  · intro cid cont h1 h2 h3
    simp [get_or_create_container, h1, h2, h3]
  · intro cid cont h1 h2 h3
    have hcid : cid ≠ newId := by
      intro he
      exact hfresh cont (dockerGet_some h2).2 ((dockerGet_some h2).1.trans he)
    constructor
    · simp only [get_or_create_container, h1, h2, if_neg h3, createFresh]
      rw [dockerGet_append, dockerGet_remove,
        dockerGet_singleton_ne _ _ (fun he => hcid he.symm)]
      rfl
    · simp only [get_or_create_container, h1, h2, if_neg h3]
      exact createFresh_post s newId createdAt sid uid _
  · intro cid h1 h2
    simp only [get_or_create_container, h1, h2]
    exact createFresh_post s newId createdAt sid uid _
  · intro h1
    simp only [get_or_create_container, h1]
    exact createFresh_post s newId createdAt sid uid _

/-- C1 witness: a store pointing at an exited container c1 leads to c1
being removed from the runtime and a fresh running c2 recorded for the
session. -/
theorem C1_get_or_create_witness :
    (get_or_create_container defaultSettings "c2" "T" wSysExited "s1"
      "alice").1.status = "running" ∧
    sm_get_container_id
        (get_or_create_container defaultSettings "c2" "T" wSysExited "s1"
          "alice").2.store "s1" = some "c2" ∧
    dockerGet
        (get_or_create_container defaultSettings "c2" "T" wSysExited "s1"
          "alice").2.docker "c1" = none := by
  have h := C1_get_or_create defaultSettings "c2" "T" "s1" "alice" wSysExited
    (by decide)
  have h4 := h.2.2.2.1 "c1" { id := "c1", status := "exited" } (by decide)
    (by decide) (by decide)
  refine ⟨h.1, ?_, h4.1⟩
  rw [h.2.1, h4.2.1]

/-! ### splitOnChar / joinSlash structure lemmas -/

lemma splitOnChar_ne_nil (sep : Char) (l : List Char) :
    splitOnChar sep l ≠ [] := by
  cases l with
  | nil => simp [splitOnChar]
  | cons c cs =>
    by_cases h : c = sep
    · simp [splitOnChar, h]
    · simp only [splitOnChar, if_neg h]
      rcases hs : splitOnChar sep cs with _ | ⟨t, ts⟩ <;> simp

lemma mem_splitOnChar_not_sep (sep : Char) (l : List Char) :
    ∀ s ∈ splitOnChar sep l, sep ∉ s := by
  induction l with
  | nil =>
    intro s hs
    simp only [splitOnChar, List.mem_singleton] at hs
    subst hs; simp
  | cons c cs ih =>
    intro s hs
    by_cases h : c = sep
    · subst h
      simp only [splitOnChar, if_pos rfl] at hs
      rcases List.mem_cons.mp hs with hs | hs
      · subst hs; simp
      · exact ih s hs
    · rcases he : splitOnChar sep cs with _ | ⟨t, ts⟩
      · exact absurd he (splitOnChar_ne_nil sep cs)
      · simp only [splitOnChar, if_neg h, he] at hs
        rcases List.mem_cons.mp hs with hs | hs
        · subst hs
          intro hmem
          rcases List.mem_cons.mp hmem with hh | hh
          · exact h hh.symm
          · exact ih t (he ▸ List.mem_cons_self t ts) hh
        · exact ih s (he ▸ List.mem_cons.mpr (Or.inr hs))

lemma mem_splitOnChar_subset (sep : Char) (l : List Char) :
    ∀ s ∈ splitOnChar sep l, ∀ c ∈ s, c ∈ l := by
  induction l with
  | nil =>
    intro s hs c hc
    simp only [splitOnChar, List.mem_singleton] at hs
    subst hs; simp at hc
  | cons a cs ih =>
    intro s hs c hc
    by_cases h : a = sep
    · subst h
      simp only [splitOnChar, if_pos rfl] at hs
      rcases List.mem_cons.mp hs with hs | hs
      · subst hs; simp at hc
      · exact List.mem_cons.mpr (Or.inr (ih s hs c hc))
    · rcases he : splitOnChar sep cs with _ | ⟨t, ts⟩
      · exact absurd he (splitOnChar_ne_nil sep cs)
      · simp only [splitOnChar, if_neg h, he] at hs
        rcases List.mem_cons.mp hs with hs | hs
        · subst hs
          rcases List.mem_cons.mp hc with hc | hc
          · exact hc ▸ List.mem_cons_self a cs
          · exact List.mem_cons.mpr
              (Or.inr (ih t (he ▸ List.mem_cons_self t ts) c hc))
        · exact List.mem_cons.mpr
            (Or.inr (ih s (he ▸ List.mem_cons.mpr (Or.inr hs)) c hc))

lemma splitOnChar_no_sep (sep : Char) (s : List Char) (h : sep ∉ s) :
    splitOnChar sep s = [s] := by
  induction s with
  | nil => rfl
  | cons c cs ih =>
    have hc : ¬ (c = sep) := fun he => h (he ▸ List.mem_cons_self c cs)
    have ih2 := ih (fun hm => h (List.mem_cons.mpr (Or.inr hm)))
    simp only [splitOnChar, if_neg hc, ih2]

lemma splitOnChar_append_no_sep (sep : Char) (a t : List Char) (h : sep ∉ a) :
    splitOnChar sep (a ++ sep :: t) = a :: splitOnChar sep t := by
  induction a with
  | nil => simp [splitOnChar]
  | cons c cs ih =>
    have hc : ¬ (c = sep) := fun he => h (he ▸ List.mem_cons_self c _)
    have ih2 := ih (fun hm => h (List.mem_cons.mpr (Or.inr hm)))
    simp only [List.cons_append, splitOnChar, List.append_eq, if_neg hc, ih2]

lemma joinSlash_cons (s : List Char) (rest : List (List Char)) (h : rest ≠ []) :
    joinSlash (s :: rest) = s ++ '/' :: joinSlash rest := by
  cases rest with
  | nil => exact absurd rfl h
  | cons t ts => rfl

lemma splitOnChar_joinSlash (segs : List (List Char)) (hne : segs ≠ [])
    (h : ∀ s ∈ segs, '/' ∉ s) :
    splitOnChar '/' (joinSlash segs) = segs := by
  induction segs with
  | nil => exact absurd rfl hne
  | cons s rest ih =>
    cases rest with
    | nil => exact splitOnChar_no_sep '/' s (h s (List.mem_cons_self _ _))
    | cons t ts =>
      rw [joinSlash_cons s (t :: ts) (by simp),
        splitOnChar_append_no_sep '/' s _ (h s (List.mem_cons_self _ _)),
        ih (by simp) (fun u hu => h u (List.mem_cons.mpr (Or.inr hu)))]

/-! ### resolveParts lemmas -/

lemma resolveParts_mem (ps : List (List Char)) :
    ∀ acc segs, resolveParts ps acc = some segs →
      ∀ s ∈ segs,
        s ∈ acc ∨ (s ∈ ps ∧ ¬(s = ['.'] ∨ s = []) ∧ s ≠ ['.', '.']) := by
  induction ps with
  | nil =>
    intro acc segs h s hs
    rw [resolveParts] at h
    injection h with h
    subst h
    exact Or.inl hs
  | cons p rest ih =>
    intro acc segs h s hs
    rw [resolveParts] at h
    by_cases h1 : p = ['.'] ∨ p = []
    · rw [if_pos h1] at h
      rcases ih acc segs h s hs with hm | ⟨hm, hg⟩
      · exact Or.inl hm
      · exact Or.inr ⟨List.mem_cons.mpr (Or.inr hm), hg⟩
    · rw [if_neg h1] at h
      by_cases h2 : p = ['.', '.']
      · rw [if_pos h2] at h
        by_cases h3 : acc = []
        · rw [if_pos h3] at h; exact absurd h (by simp)
        · rw [if_neg h3] at h
          rcases ih acc.dropLast segs h s hs with hm | ⟨hm, hg⟩
          · exact Or.inl ((List.dropLast_sublist acc).subset hm)
          · exact Or.inr ⟨List.mem_cons.mpr (Or.inr hm), hg⟩
      · rw [if_neg h2] at h
        rcases ih (acc ++ [p]) segs h s hs with hm | ⟨hm, hg⟩
        · rcases List.mem_append.mp hm with hm | hm
          · exact Or.inl hm
          · rw [List.mem_singleton] at hm
            rw [hm]
            exact Or.inr ⟨List.mem_cons_self p rest, h1, h2⟩
        · exact Or.inr ⟨List.mem_cons.mpr (Or.inr hm), hg⟩

lemma resolveParts_none_iff (ps : List (List Char)) :
    ∀ acc, (resolveParts ps acc = none ↔ popsPastRoot ps acc.length = true) := by
  induction ps with
  | nil => intro acc; simp [resolveParts, popsPastRoot]
  | cons p rest ih =>
    intro acc
    rw [resolveParts, popsPastRoot]
    by_cases h1 : p = ['.'] ∨ p = []
    · rw [if_pos h1, if_pos h1]; exact ih acc
    · rw [if_neg h1, if_neg h1]
      by_cases h2 : p = ['.', '.']
      · rw [if_pos h2, if_pos h2]
        cases acc with
        | nil => simp
        | cons a as =>
          rw [if_neg (by simp)]
          have := ih (a :: as).dropLast
          simpa using this
      · rw [if_neg h2, if_neg h2]
        have := ih (acc ++ [p])
        simpa [List.length_append] using this

/-! ### normalization lemmas -/

lemma normStep_fold_good (segs : List (List Char))
    (h : ∀ s ∈ segs, ¬(s = [] ∨ s = ['.']) ∧ s ≠ ['.', '.']) :
    ∀ acc, List.foldl normStep acc segs = acc ++ segs := by
  induction segs with
  | nil => intro acc; simp
  | cons s rest ih =>
    intro acc
    have hs := h s (List.mem_cons_self s rest)
    rw [List.foldl_cons, normStep, if_neg hs.1, if_neg hs.2,
      ih (fun u hu => h u (List.mem_cons.mpr (Or.inr hu)))]
    simp

/-! ### resolve_workspace_path lemmas -/

lemma resolve_eq_segments (path : List Char) :
    resolve_workspace_path path = (resolveSegments path).map joinSlash := by
  simp only [resolve_workspace_path, resolveSegments]
  split <;> rfl

lemma resolveSegments_good (path : List Char) (segs : List (List Char))
    (h : resolveSegments path = some segs) :
    ∀ s ∈ segs, s ≠ [] ∧ s ≠ ['.'] ∧ s ≠ ['.', '.'] ∧ '/' ∉ s := by
  intro s hs
  simp only [resolveSegments] at h
  by_cases hp : (pyStrip path).dropWhile (· = '/') = []
  · rw [if_pos hp] at h
    injection h with h; subst h; simp at hs
  · rw [if_neg hp] at h
    rcases resolveParts_mem _ _ _ h s hs with hm | ⟨hmem, hguard, hdd⟩
    · simp at hm
    · have hsep := mem_splitOnChar_not_sep '/' _ s hmem
      push_neg at hguard
      exact ⟨hguard.2, hguard.1, hdd, hsep⟩

lemma resolve_underWorkspace (path r : List Char)
    (h : resolve_workspace_path path = some r) :
    underWorkspace (normalizeAbs (container_path r)) = true := by
  rw [resolve_eq_segments] at h
  rcases hseg : resolveSegments path with _ | segs
  · rw [hseg] at h; simp at h
  · rw [hseg] at h
    simp only [Option.map_some'] at h
    injection h with h
    subst h
    have hgood := resolveSegments_good path segs hseg
    cases segs with
    | nil => decide
    | cons s rest =>
      have hs := hgood s (List.mem_cons_self s rest)
      have hne : joinSlash (s :: rest) ≠ [] := by
        cases rest with
        | nil => simpa [joinSlash] using hs.1
        | cons t ts =>
          rw [joinSlash_cons s (t :: ts) (by simp)]
          cases s with
          | nil => exact absurd rfl hs.1
          | cons c cs => simp
      rw [container_path, if_neg hne]
      have e1 : "/workspace/".toList ++ joinSlash (s :: rest) =
          '/' :: ("workspace".toList ++ '/' :: joinSlash (s :: rest)) := rfl
      rw [normalizeAbs, e1]
      have e2 : splitOnChar '/'
          ('/' :: ("workspace".toList ++ '/' :: joinSlash (s :: rest))) =
          [] :: splitOnChar '/'
            ("workspace".toList ++ '/' :: joinSlash (s :: rest)) := by
        simp [splitOnChar]
      rw [e2, splitOnChar_append_no_sep '/' _ _ (by decide),
        splitOnChar_joinSlash (s :: rest) (by simp)
          (fun u hu => (hgood u hu).2.2.2)]
      rw [normalizeSegs]
      have e4 : List.foldl normStep []
          ([] :: "workspace".toList :: s :: rest) =
          List.foldl normStep ["workspace".toList] (s :: rest) := rfl
      rw [e4, normStep_fold_good (s :: rest)
        (fun u hu => ⟨not_or.mpr ⟨(hgood u hu).1, (hgood u hu).2.1⟩,
          (hgood u hu).2.2.1⟩) ["workspace".toList]]
      rw [List.singleton_append, joinSlash_cons _ (s :: rest) (by simp)]
      rw [underWorkspace]
      have hpre : "/workspace/".toList.isPrefixOf
          ('/' :: ("workspace".toList ++ '/' :: joinSlash (s :: rest))) = true :=
        List.isPrefixOf_iff_prefix.mpr ⟨joinSlash (s :: rest), rfl⟩
      rw [hpre, Bool.or_true]

lemma resolve_none_iff (path : List Char) :
    resolve_workspace_path path = none ↔
      popsPastRoot (splitOnChar '/' ((pyStrip path).dropWhile (· = '/'))) 0 =
        true := by
  simp only [resolve_workspace_path]
  by_cases hp : (pyStrip path).dropWhile (· = '/') = []
  · rw [if_pos hp, hp]
    simp [splitOnChar, popsPastRoot]
  · rw [if_neg hp, Option.map_eq_none']
    exact resolveParts_none_iff _ []

lemma resolveParts_ne_none (ps : List (List Char)) :
    ∀ acc, (∀ p ∈ ps, p ≠ ['.', '.']) → resolveParts ps acc ≠ none := by
  induction ps with
  | nil => intro acc h; rw [resolveParts]; simp
  | cons p rest ih =>
    intro acc h
    rw [resolveParts]
    by_cases h1 : p = ['.'] ∨ p = []
    · rw [if_pos h1]
      exact ih acc (fun u hu => h u (List.mem_cons.mpr (Or.inr hu)))
    · rw [if_neg h1, if_neg (h p (List.mem_cons_self p rest))]
      exact ih (acc ++ [p]) (fun u hu => h u (List.mem_cons.mpr (Or.inr hu)))

lemma mem_pyStrip (l : List Char) : ∀ c ∈ pyStrip l, c ∈ l := by
  intro c hc
  rw [pyStrip, List.mem_reverse] at hc
  have h2 := (List.dropWhile_sublist _).subset hc
  rw [List.mem_reverse] at h2
  exact (List.dropWhile_sublist _).subset h2

/-- C5: on success the resolved path has no leading slash and its
segments are nonempty and free of "." and ".."; prefixing it with
/workspace/ normalizes to a path still under /workspace; the function
fails exactly when a ".." segment pops past the root; empty input yields
the workspace root. -/
theorem C5_resolve (path : List Char) :
    (∀ r, resolve_workspace_path path = some r →
      r.head? ≠ some '/' ∧
      (∃ segs, resolveSegments path = some segs ∧ r = joinSlash segs ∧
        ∀ s ∈ segs, s ≠ [] ∧ s ≠ ['.'] ∧ s ≠ ['.', '.'] ∧ '/' ∉ s) ∧
      (r ≠ [] → ∀ s ∈ splitOnChar '/' r,
        s ≠ [] ∧ s ≠ ['.'] ∧ s ≠ ['.', '.']) ∧
      underWorkspace (normalizeAbs (container_path r)) = true) ∧
    (resolve_workspace_path path = none ↔
      popsPastRoot (splitOnChar '/' ((pyStrip path).dropWhile (· = '/'))) 0 =
        true) ∧
    resolve_workspace_path [] = some [] := by
  refine ⟨?_, resolve_none_iff path, rfl⟩
  intro r hr
  have hseg : ∃ segs, resolveSegments path = some segs ∧ r = joinSlash segs := by
    have h := hr
    rw [resolve_eq_segments] at h
    rcases he : resolveSegments path with _ | segs
    · rw [he] at h; simp at h
    · rw [he] at h
      simp only [Option.map_some'] at h
      injection h with h
      exact ⟨segs, rfl, h.symm⟩
  obtain ⟨segs, he, hrj⟩ := hseg
  have hgood := resolveSegments_good path segs he
  refine ⟨?_, ⟨segs, he, hrj, hgood⟩, ?_, resolve_underWorkspace path r hr⟩
  · subst hrj
    cases segs with
    | nil => simp [joinSlash]
    | cons s rest =>
      have hs := hgood s (List.mem_cons_self s rest)
      cases rest with
      | nil =>
        cases s with
        | nil => exact absurd rfl hs.1
        | cons c cs =>
          simp only [joinSlash, List.head?_cons, ne_eq, Option.some.injEq]
          intro hceq
          exact hs.2.2.2 (hceq ▸ List.mem_cons_self c cs)
      | cons t ts =>
        rw [joinSlash_cons s (t :: ts) (by simp)]
        cases s with
        | nil => exact absurd rfl hs.1
        | cons c cs =>
          simp only [List.cons_append, List.head?_cons, ne_eq,
            Option.some.injEq]
          intro hceq
          exact hs.2.2.2 (hceq ▸ List.mem_cons_self c _)
  · intro hrne u hu
    subst hrj
    have hsegne : segs ≠ [] := by
      intro hnil; subst hnil; exact hrne rfl
    rw [splitOnChar_joinSlash segs hsegne (fun v hv => (hgood v hv).2.2.2)]
      at hu
    exact ⟨(hgood u hu).1, (hgood u hu).2.1, (hgood u hu).2.2.1⟩

/-- C5 witness: a/../b resolves to b, whose containered form normalizes
under the workspace root, and ../x is rejected because its leading ".."
pops past the root. -/
theorem C5_resolve_witness :
    underWorkspace (normalizeAbs (container_path "b".toList)) = true ∧
    popsPastRoot (splitOnChar '/'
      ((pyStrip "../x".toList).dropWhile (· = '/'))) 0 = true := by
  refine ⟨((C5_resolve "a/../b".toList).1 "b".toList (by decide)).2.2.2, ?_⟩
  exact (C5_resolve "../x".toList).2.1.mp (by decide)

/-- C10 amended: resolve_workspace_path strips surrounding whitespace and
then leading slashes, so /etc/passwd resolves silently to etc/passwd;
whitespace-only input yields the workspace root; input made of whitespace
and slashes is never rejected with bad-path (though, per the
counterexample, it need not yield the root). -/
theorem C10_strip_behavior (path : List Char) :
    resolve_workspace_path "/etc/passwd".toList = some "etc/passwd".toList ∧
    ((∀ c ∈ path, isPyWhitespace c = true) →
      resolve_workspace_path path = some []) ∧
    ((∀ c ∈ path, isPyWhitespace c = true ∨ c = '/') →
      resolve_workspace_path path ≠ none) := by
  refine ⟨by decide, ?_, ?_⟩
  · intro h
    have hstrip : pyStrip path = [] := by
      simp only [pyStrip]
      rw [List.dropWhile_eq_nil_iff.mpr h]
      rfl
    simp only [resolve_workspace_path, hstrip]
    rfl
  · intro h
    simp only [resolve_workspace_path]
    by_cases hp : (pyStrip path).dropWhile (· = '/') = []
    · rw [if_pos hp]; simp
    · rw [if_neg hp]
      intro hnone
      rw [Option.map_eq_none'] at hnone
      refine resolveParts_ne_none _ [] ?_ hnone
      intro u hu he
      subst he
      have hdot : '.' ∈ (pyStrip path).dropWhile (· = '/') :=
        mem_splitOnChar_subset '/' _ _ hu '.' (by simp)
      have hdot2 : '.' ∈ path :=
        mem_pyStrip path _ ((List.dropWhile_sublist _).subset hdot)
      rcases h '.' hdot2 with hws | hsl
      · exact absurd hws (by decide)
      · exact absurd hsl (by decide)

/-- C10 amended witness: whitespace-only input resolves to the root, and
a whitespace-and-slash input is not rejected. -/
theorem C10_strip_behavior_witness :
    resolve_workspace_path "  ".toList = some [] ∧
    resolve_workspace_path " // / ".toList ≠ none :=
  ⟨(C10_strip_behavior "  ".toList).2.1 (by decide),
    (C10_strip_behavior " // / ".toList).2.2 (by decide)⟩

/-- C6: is_command_allowed returns true exactly when the stripped command
is nonempty, POSIX shell-word splitting succeeds with at least one token,
and the basename of token 0 (lowercased, directory prefix dropped) is in
the configured set; empty commands are rejected, and an unparseable
command (shlex ValueError) is never admitted. -/
theorem C6_whitelist (allowed : List (List Char)) (command : List Char) :
    (is_command_allowed allowed command = some true ↔
      (pyStrip command ≠ [] ∧
       ∃ t0 ts, shlex_split (pyStrip command) = some (t0 :: ts) ∧
         tokenBasename t0 ∈ allowed)) ∧
    (pyStrip command = [] → is_command_allowed allowed command = some false) ∧
    (shlex_split (pyStrip command) = none →
      is_command_allowed allowed command ≠ some true) := by
  refine ⟨⟨?_, ?_⟩, ?_, ?_⟩
  · intro h
    simp only [is_command_allowed] at h
    by_cases hs : pyStrip command = []
    · rw [if_pos hs] at h; exact absurd h (by simp)
    · rw [if_neg hs] at h
      rcases he : shlex_split (pyStrip command) with _ | ⟨_ | ⟨t0, ts⟩⟩
      · simp only [he] at h; simp at h
      · simp only [he, Option.some.injEq] at h; simp at h
      · simp only [he, Option.some.injEq] at h
        refine ⟨hs, t0, ts, rfl, ?_⟩
        simpa [List.contains, List.elem_iff] using h
  · rintro ⟨hs, t0, ts, he, hmem⟩
    simp only [is_command_allowed, if_neg hs, he]
    simpa [List.contains, List.elem_iff] using hmem
  · intro hs
    simp [is_command_allowed, hs]
  · intro hn
    by_cases hs : pyStrip command = [] <;>
      simp [is_command_allowed, hs, hn]

/-- C6 witness: a command whose binary carries a directory prefix and
mixed case is admitted via its lowercased basename, a whitespace-only
command is rejected, and an unparseable command is not admitted. -/
theorem C6_whitelist_witness :
    is_command_allowed (allowed_commands_set default_allowed_commands)
      "/bin/LS -la".toList = some true ∧
    is_command_allowed (allowed_commands_set default_allowed_commands)
      "   ".toList = some false ∧
    is_command_allowed (allowed_commands_set default_allowed_commands)
      "'unclosed".toList ≠ some true := by
  refine ⟨?_, ?_, ?_⟩
  · exact (C6_whitelist _ _).1.mpr
      ⟨by decide, "/bin/LS".toList, ["-la".toList], by decide, by decide⟩
  · exact (C6_whitelist _ _).2.1 (by decide)
  · exact (C6_whitelist _ _).2.2 (by decide)

end SandboxSpec
